import Mathlib

/-!
Verification of the `questfile` package of `project-agonyl/agonyl-utils-go`.

The package reads and writes the A3 binary quest file format: a 96-byte
header, exactly 7 objective blocks (each a fixed 96-byte block plus an
optional name whose length is the byte at offset 92 of the block), and a
12-byte continuation section; all multi-byte values are little-endian.

The Go code is shallowly embedded here: bytes are `Nat` (with range facts
carried as hypotheses, mirroring Go's `byte` type), byte buffers are
`List Nat`, an `io.Reader` is a deterministic stream (`Reader`), and the
fallible `Read` decoder returns `Except QErr QuestFile`.
-/

namespace Questfile

/-- Little-endian interpretation of a byte list
(models `binary.LittleEndian.UintNN`). -/
def leNat : List Nat → Nat
  | [] => 0
  | b :: bs => b + 256 * leNat bs

/-- Little-endian encoding of `v` into `k` bytes
(models `binary.LittleEndian.PutUintNN` and `binary.Write` of a `uintNN`). -/
def leBytes : Nat → Nat → List Nat
  | 0, _ => []
  | k + 1, v => v % 256 :: leBytes k (v / 256)

/-- Decode errors of `questfile.Read`, together with pass-through stream
errors (`ioErr e` stands for a reader error other than `io.EOF`, identified
by an abstract code `e`). -/
inductive QErr
  | unexpectedEOF
  | invalidObjectiveType
  | nameLengthForType
  | trailingBytes
  | ioErr (code : Nat)
  deriving Repr, DecidableEq

/-- A deterministic byte stream, modelling the `io.Reader` fed to `Read`:
`data` is the remaining bytes; once they are exhausted, further reads
observe a clean end-of-stream when `tailErr = none`, and the non-EOF
reader error `e` when `tailErr = some e`. -/
structure Reader where
  data : List Nat
  tailErr : Option Nat
  deriving Repr, DecidableEq

/-- Models `io.ReadFull` (and `binary.Read`, which reads via `io.ReadFull`)
for `n` bytes, combined with the decoder's normalisation of `io.EOF` to
`io.ErrUnexpectedEOF`: a short read on a cleanly ending stream yields
`unexpectedEOF` (io.ReadFull returns `io.EOF` on zero bytes — mapped by the
decoder — and `io.ErrUnexpectedEOF` on a partial read); a short read on a
stream whose tail raises `e` propagates `e`. -/
def readFull (r : Reader) (n : Nat) : Except QErr (List Nat × Reader) :=
  if n ≤ r.data.length then
    .ok (r.data.take n, ⟨r.data.drop n, r.tailErr⟩)
  else
    match r.tailErr with
    | none => .error .unexpectedEOF
    | some e => .error (.ioErr e)

/-- Format constants of the Go package. -/
def HeaderSize : Nat := 96

/-- Objective block size in bytes. -/
def ObjectiveBlockSize : Nat := 96

/-- Number of objective slots. -/
def NumObjectives : Nat := 7

/-- Continuation section size in bytes. -/
def ContinuationSize : Nat := 12

/-- Minimum total file size: 96 + 7 * 96 + 12 = 780. -/
def MinFileSize : Nat := HeaderSize + NumObjectives * ObjectiveBlockSize + ContinuationSize

/-- Objective type constants. -/
def TypeKILL : Nat := 0

/-- Objective type constant QUESTITEM. -/
def TypeQUESTITEM : Nat := 1

/-- Objective type constant BRINGNPC. -/
def TypeBRINGNPC : Nat := 2

/-- Objective type constant DROP. -/
def TypeDROP : Nat := 3

/-- Objective type constant FIND. -/
def TypeFIND : Nat := 4

/-- Sentinel type (0xFF) marking an empty/unused objective slot. -/
def TypeUnused : Nat := 255

/-- Sentinel: unused reward item code. -/
def UnusedRewardItemCode : Nat := 0xFFFF

/-- Sentinel: unused continuation slot. -/
def UnusedContinuation : Nat := 0xFFFFFFFF

/-- The fixed 96-byte quest file header (`questfile.QuestHeader`); the
layout preserves padding for exact round-trips. Fixed-size Go byte arrays
become `List Nat` whose lengths are carried by `QuestHeader.Sized`. -/
structure QuestHeader where
  QuestIDRaw     : List Nat
  GivenNPCRaw    : List Nat
  TargetNPCBlock : List Nat
  MinLevel       : Nat
  MinLevelPad    : List Nat
  MaxLevel       : Nat
  MaxLevelPad    : List Nat
  QuestFlags     : Nat
  RewardSlot1    : List Nat
  RewardSlot2    : List Nat
  RewardSlot3    : List Nat
  RewardSlot4Pad : List Nat
  RewardAreaPad  : List Nat
  Count1         : Nat
  Count1Pad      : List Nat
  Count2         : Nat
  Count2Pad      : List Nat
  Count3         : Nat
  Count3Pad      : List Nat
  EXP            : Nat
  Woonz          : Nat
  Lore           : Nat
  HeaderTail     : List Nat
  deriving Repr, DecidableEq

/-- One objective slot (`questfile.Objective`): the fixed 96-byte block
(name length at offset 92) plus the optional trailing name bytes. -/
structure Objective where
  Block : List Nat
  Name  : List Nat
  deriving Repr, DecidableEq

instance : Inhabited Objective := ⟨⟨[], []⟩⟩

/-- The in-memory quest file (`questfile.QuestFile`): header, exactly 7
objectives, and 3 continuation values. -/
structure QuestFile where
  Header       : QuestHeader
  Objectives   : List Objective
  Continuation : List Nat
  deriving Repr, DecidableEq

/-- Field-by-field little-endian decoding of the 96 header bytes, exactly
as `binary.Read` fills `QuestHeader` (sequential consumption of the byte
arrays, `uint8` and `uint32` fields in declaration order). -/
def parseHeader (b : List Nat) : QuestHeader :=
  let r0 := b
  let questIDRaw := r0.take 4;      let r1 := r0.drop 4
  let givenNPCRaw := r1.take 4;     let r2 := r1.drop 4
  let targetNPCBlock := r2.take 24; let r3 := r2.drop 24
  let minLevel := leNat (r3.take 1); let r4 := r3.drop 1
  let minLevelPad := r4.take 3;     let r5 := r4.drop 3
  let maxLevel := leNat (r5.take 1); let r6 := r5.drop 1
  let maxLevelPad := r6.take 3;     let r7 := r6.drop 3
  let questFlags := leNat (r7.take 4); let r8 := r7.drop 4
  let rewardSlot1 := r8.take 4;     let r9 := r8.drop 4
  let rewardSlot2 := r9.take 4;     let r10 := r9.drop 4
  let rewardSlot3 := r10.take 4;    let r11 := r10.drop 4
  let rewardSlot4Pad := r11.take 4; let r12 := r11.drop 4
  let rewardAreaPad := r12.take 8;  let r13 := r12.drop 8
  let count1 := leNat (r13.take 1); let r14 := r13.drop 1
  let count1Pad := r14.take 3;      let r15 := r14.drop 3
  let count2 := leNat (r15.take 1); let r16 := r15.drop 1
  let count2Pad := r16.take 3;      let r17 := r16.drop 3
  let count3 := leNat (r17.take 1); let r18 := r17.drop 1
  let count3Pad := r18.take 3;      let r19 := r18.drop 3
  let exp := leNat (r19.take 4);    let r20 := r19.drop 4
  let woonz := leNat (r20.take 4);  let r21 := r20.drop 4
  let lore := leNat (r21.take 4);   let r22 := r21.drop 4
  let headerTail := r22.take 4
  { QuestIDRaw := questIDRaw
    GivenNPCRaw := givenNPCRaw
    TargetNPCBlock := targetNPCBlock
    MinLevel := minLevel
    MinLevelPad := minLevelPad
    MaxLevel := maxLevel
    MaxLevelPad := maxLevelPad
    QuestFlags := questFlags
    RewardSlot1 := rewardSlot1
    RewardSlot2 := rewardSlot2
    RewardSlot3 := rewardSlot3
    RewardSlot4Pad := rewardSlot4Pad
    RewardAreaPad := rewardAreaPad
    Count1 := count1
    Count1Pad := count1Pad
    Count2 := count2
    Count2Pad := count2Pad
    Count3 := count3
    Count3Pad := count3Pad
    EXP := exp
    Woonz := woonz
    Lore := lore
    HeaderTail := headerTail }

/-- Field-by-field little-endian encoding of the header, exactly as
`binary.Write` serialises `QuestHeader` (byte arrays verbatim, `uint8` as
one byte, `uint32` as 4 little-endian bytes). -/
def serializeHeader (h : QuestHeader) : List Nat :=
  h.QuestIDRaw ++ h.GivenNPCRaw ++ h.TargetNPCBlock ++
  leBytes 1 h.MinLevel ++ h.MinLevelPad ++ leBytes 1 h.MaxLevel ++ h.MaxLevelPad ++
  leBytes 4 h.QuestFlags ++
  h.RewardSlot1 ++ h.RewardSlot2 ++ h.RewardSlot3 ++ h.RewardSlot4Pad ++
  h.RewardAreaPad ++
  leBytes 1 h.Count1 ++ h.Count1Pad ++ leBytes 1 h.Count2 ++ h.Count2Pad ++
  leBytes 1 h.Count3 ++ h.Count3Pad ++
  leBytes 4 h.EXP ++ leBytes 4 h.Woonz ++ leBytes 4 h.Lore ++ h.HeaderTail

/-- Type byte of an objective: offset 0 of the block
(`Objective.ObjectiveType`). -/
def Objective.objectiveType (o : Objective) : Nat := o.Block.getD 0 0

/-- Name-length byte of an objective: offset 92 of the block
(`Objective.NameLength`). -/
def Objective.nameLength (o : Objective) : Nat := o.Block.getD 92 0

/-- Unused-slot predicate (`Objective.IsUnused`). -/
def Objective.isUnused (o : Objective) : Bool := o.Block.getD 0 0 == TypeUnused

/-- One iteration of the objective loop of `questfile.Read`: read the
96-byte block, validate the type byte (0–4 or the 0xFF unused sentinel),
require a zero name length for every type other than DROP and FIND, and
read the name bytes when the name length is positive. -/
def readObjective (r : Reader) : Except QErr (Objective × Reader) :=
  match readFull r ObjectiveBlockSize with
  | .error e => .error e
  | .ok (block, r1) =>
    let objType := block.getD 0 0
    let nameLen := block.getD 92 0
    if TypeFIND < objType ∧ objType ≠ TypeUnused then
      .error .invalidObjectiveType
    else if objType ≠ TypeDROP ∧ objType ≠ TypeFIND ∧ nameLen ≠ 0 then
      .error .nameLengthForType
    else if 0 < nameLen then
      match readFull r1 nameLen with
      | .error e => .error e
      | .ok (name, r2) => .ok (⟨block, name⟩, r2)
    else
      .ok (⟨block, []⟩, r1)

/-- The objective loop of `questfile.Read`, `k` slots in order. -/
def readObjectives : Nat → Reader → Except QErr (List Objective × Reader)
  | 0, r => .ok ([], r)
  | k + 1, r =>
    match readObjective r with
    | .error e => .error e
    | .ok (o, r1) =>
      match readObjectives k r1 with
      | .error e => .error e
      | .ok (os, r2) => .ok (o :: os, r2)

/-- The continuation loop of `questfile.Read`: `k` little-endian `uint32`
values, 4 bytes each. -/
def readContinuation : Nat → Reader → Except QErr (List Nat × Reader)
  | 0, r => .ok ([], r)
  | k + 1, r =>
    match readFull r 4 with
    | .error e => .error e
    | .ok (w, r1) =>
      match readContinuation k r1 with
      | .error e => .error e
      | .ok (ws, r2) => .ok (leNat w :: ws, r2)

/-- The trailing-bytes probe `n, _ := r.Read(one[:])`: the byte count the
speculative 1-byte read returns; any error it raises is discarded. -/
def probeRead (r : Reader) : Nat :=
  match r.data with
  | [] => 0
  | _ :: _ => 1

/-- `questfile.Read`: header, exactly 7 objectives, continuation, then the
trailing-bytes probe; fails with `trailingBytes` exactly when the probe
returns at least one byte. -/
def read (r : Reader) : Except QErr QuestFile :=
  match readFull r HeaderSize with
  | .error e => .error e
  | .ok (hb, r1) =>
    match readObjectives NumObjectives r1 with
    | .error e => .error e
    | .ok (objs, r2) =>
      match readContinuation 3 r2 with
      | .error e => .error e
      | .ok (cont, r3) =>
        if 0 < probeRead r3 then
          .error .trailingBytes
        else
          .ok ⟨parseHeader hb, objs, cont⟩

/-- Serialisation of one objective by `questfile.Write`: the 96-byte block
verbatim, then the name bytes verbatim (writing an empty name is a no-op). -/
def writeObjective (o : Objective) : List Nat := o.Block ++ o.Name

/-- The objective loop of `questfile.Write`. -/
def writeObjectives : List Objective → List Nat
  | [] => []
  | o :: os => writeObjective o ++ writeObjectives os

/-- The continuation serialisation of `questfile.Write`: each value as 4
little-endian bytes. -/
def writeContinuation : List Nat → List Nat
  | [] => []
  | c :: cs => leBytes 4 c ++ writeContinuation cs

/-- `questfile.Write` against an always-succeeding sink: the exact byte
sequence written (header, the 7 objectives, continuation). No validation is
performed on encode. -/
def write (q : QuestFile) : List Nat :=
  serializeHeader q.Header ++ writeObjectives q.Objectives ++ writeContinuation q.Continuation

/-- `QuestHeader.QuestID`: little-endian 16-bit value of the first 2 bytes
of the 4-byte quest-id slot. -/
def QuestHeader.questID (h : QuestHeader) : Nat := leNat (h.QuestIDRaw.take 2)

/-- `QuestHeader.SetQuestID`: overwrite the first 2 bytes of the quest-id
slot with the little-endian encoding of `id`, preserving the rest. -/
def QuestHeader.setQuestID (h : QuestHeader) (id : Nat) : QuestHeader :=
  { h with QuestIDRaw := leBytes 2 id ++ h.QuestIDRaw.drop 2 }

/-- `QuestHeader.GivenNPCID`: little-endian 16-bit value of the first 2
bytes of the given-NPC slot. -/
def QuestHeader.givenNPCID (h : QuestHeader) : Nat := leNat (h.GivenNPCRaw.take 2)

/-- `QuestHeader.SetGivenNPCID`: overwrite the first 2 bytes of the
given-NPC slot with the little-endian encoding of `id`, preserving the
rest. -/
def QuestHeader.setGivenNPCID (h : QuestHeader) (id : Nat) : QuestHeader :=
  { h with GivenNPCRaw := leBytes 2 id ++ h.GivenNPCRaw.drop 2 }

/-- All entries of a byte buffer are in byte range (Go's `byte` type). -/
def bytesLt (l : List Nat) : Prop := ∀ b ∈ l, b < 256

instance (l : List Nat) : Decidable (bytesLt l) := List.decidableBAll _ l

/-- The Go type invariant on the header: every fixed-size byte array has
its declared length. -/
def QuestHeader.Sized (h : QuestHeader) : Prop :=
  h.QuestIDRaw.length = 4 ∧ h.GivenNPCRaw.length = 4 ∧ h.TargetNPCBlock.length = 24 ∧
  h.MinLevelPad.length = 3 ∧ h.MaxLevelPad.length = 3 ∧
  h.RewardSlot1.length = 4 ∧ h.RewardSlot2.length = 4 ∧ h.RewardSlot3.length = 4 ∧
  h.RewardSlot4Pad.length = 4 ∧ h.RewardAreaPad.length = 8 ∧
  h.Count1Pad.length = 3 ∧ h.Count2Pad.length = 3 ∧ h.Count3Pad.length = 3 ∧
  h.HeaderTail.length = 4

/-- The Go type invariant on header values: bytes are bytes, `uint8`
fields fit in 8 bits, `uint32` fields fit in 32 bits. -/
def QuestHeader.InRange (h : QuestHeader) : Prop :=
  bytesLt h.QuestIDRaw ∧ bytesLt h.GivenNPCRaw ∧ bytesLt h.TargetNPCBlock ∧
  h.MinLevel < 256 ∧ bytesLt h.MinLevelPad ∧ h.MaxLevel < 256 ∧ bytesLt h.MaxLevelPad ∧
  h.QuestFlags < 2 ^ 32 ∧ bytesLt h.RewardSlot1 ∧ bytesLt h.RewardSlot2 ∧
  bytesLt h.RewardSlot3 ∧ bytesLt h.RewardSlot4Pad ∧ bytesLt h.RewardAreaPad ∧
  h.Count1 < 256 ∧ bytesLt h.Count1Pad ∧ h.Count2 < 256 ∧ bytesLt h.Count2Pad ∧
  h.Count3 < 256 ∧ bytesLt h.Count3Pad ∧
  h.EXP < 2 ^ 32 ∧ h.Woonz < 2 ^ 32 ∧ h.Lore < 2 ^ 32 ∧ bytesLt h.HeaderTail

/-- A structurally valid objective slot: the block has 96 byte-range
entries, the type byte is one of {0,1,2,3,4,0xFF}, the name-length byte is
zero unless the type is DROP or FIND, and the name buffer's length matches
the embedded name-length byte (the decode validation rules). -/
def Objective.ValidSlot (o : Objective) : Prop :=
  o.Block.length = 96 ∧ bytesLt o.Block ∧ bytesLt o.Name ∧
  (o.objectiveType ≤ TypeFIND ∨ o.objectiveType = TypeUnused) ∧
  (o.objectiveType = TypeDROP ∨ o.objectiveType = TypeFIND ∨ o.nameLength = 0) ∧
  o.Name.length = o.nameLength

/-- A valid `QuestFile`: Go type invariants plus the decode validation
rules on every objective slot. -/
def QuestFile.Valid (q : QuestFile) : Prop :=
  q.Header.Sized ∧ q.Header.InRange ∧
  q.Objectives.length = NumObjectives ∧ (∀ o ∈ q.Objectives, o.ValidSlot) ∧
  q.Continuation.length = 3 ∧ ∀ c ∈ q.Continuation, c < 2 ^ 32

/-! ### Little-endian primitives -/

theorem leBytes_length (k v : Nat) : (leBytes k v).length = k := by
  induction k generalizing v with
  | zero => rfl
  | succ k ih => simp [leBytes, ih]

theorem leBytes_lt (k v : Nat) : bytesLt (leBytes k v) := by
  induction k generalizing v with
  | zero => intro b hb; simp [leBytes] at hb
  | succ k ih =>
    intro b hb
    simp only [leBytes, List.mem_cons] at hb
    rcases hb with h | h
    · exact h ▸ Nat.mod_lt _ (by omega)
    · exact ih _ b h

theorem leNat_leBytes (k v : Nat) : leNat (leBytes k v) = v % 2 ^ (8 * k) := by
  induction k generalizing v with
  | zero => simp [leBytes, leNat, Nat.mod_one]
  | succ k ih =>
    have hpow : 2 ^ (8 * (k + 1)) = 256 * 2 ^ (8 * k) := by
      rw [show 8 * (k + 1) = 8 + 8 * k by ring, pow_add]
      norm_num
    rw [leBytes, leNat, ih, hpow, Nat.mod_mul]

theorem leNat_leBytes_of_lt {k v : Nat} (h : v < 2 ^ (8 * k)) :
    leNat (leBytes k v) = v := by
  rw [leNat_leBytes, Nat.mod_eq_of_lt h]

theorem leBytes_leNat (bs : List Nat) (h : bytesLt bs) :
    leBytes bs.length (leNat bs) = bs := by
  induction bs with
  | nil => rfl
  | cons b rest ih =>
    have hb : b < 256 := h b (List.mem_cons_self _ _)
    have hrest : bytesLt rest := fun x hx => h x (List.mem_cons_of_mem _ hx)
    simp only [List.length_cons, leBytes, leNat]
    rw [Nat.add_mul_mod_self_left, Nat.mod_eq_of_lt hb,
      Nat.add_mul_div_left _ _ (by omega : (0:Nat) < 256),
      Nat.div_eq_of_lt hb, Nat.zero_add, ih hrest]

theorem leNat_lt (bs : List Nat) (h : bytesLt bs) : leNat bs < 2 ^ (8 * bs.length) := by
  induction bs with
  | nil => simp [leNat]
  | cons b rest ih =>
    have hb : b < 256 := h b (List.mem_cons_self _ _)
    have hrest := ih (fun x hx => h x (List.mem_cons_of_mem _ hx))
    simp only [leNat, List.length_cons]
    have hpow : 2 ^ (8 * (rest.length + 1)) = 256 * 2 ^ (8 * rest.length) := by
      rw [show 8 * (rest.length + 1) = 8 + 8 * rest.length by ring, pow_add]
      norm_num
    rw [hpow]
    omega

/-! ### Stream-read primitives -/

theorem readFull_exact (a rest : List Nat) (te : Option Nat) {n : Nat}
    (h : a.length = n) : readFull ⟨a ++ rest, te⟩ n = .ok (a, ⟨rest, te⟩) := by
  have hle : n ≤ (a ++ rest).length := by simp [← h]
  simp only [readFull, if_pos hle, List.take_left' h, List.drop_left' h]

theorem readFull_exact_nil (a : List Nat) (te : Option Nat) {n : Nat}
    (h : a.length = n) : readFull ⟨a, te⟩ n = .ok (a, ⟨[], te⟩) := by
  have := readFull_exact a [] te h
  simpa using this

theorem readFull_short (d : List Nat) {n : Nat} (h : d.length < n) :
    readFull ⟨d, none⟩ n = .error .unexpectedEOF := by
  simp [readFull, Nat.not_le.mpr h]

/-! ### Header codec -/

theorem leNat_leBytes_four {v : Nat} (h : v < 2 ^ 32) : leNat (leBytes 4 v) = v :=
  leNat_leBytes_of_lt (by norm_num; exact h)

theorem leNat_leBytes_one {v : Nat} (h : v < 256) : leNat (leBytes 1 v) = v :=
  leNat_leBytes_of_lt (by norm_num; exact h)

theorem serializeHeader_length (h : QuestHeader) (hs : h.Sized) :
    (serializeHeader h).length = 96 := by
  obtain ⟨s1, s2, s3, s4, s5, s6, s7, s8, s9, s10, s11, s12, s13, s14⟩ := hs
  simp [serializeHeader, leBytes_length, s1, s2, s3, s4, s5, s6, s7, s8, s9,
    s10, s11, s12, s13, s14]

theorem parseHeader_serializeHeader (h : QuestHeader) (hs : h.Sized)
    (hr : h.InRange) : parseHeader (serializeHeader h) = h := by
  obtain ⟨s1, s2, s3, s4, s5, s6, s7, s8, s9, s10, s11, s12, s13, s14⟩ := hs
  obtain ⟨r1, r2, r3, r4, r5, r6, r7, r8, r9, r10, r11, r12, r13, r14, r15,
    r16, r17, r18, r19, r20, r21, r22, r23⟩ := hr
  have htail : List.take 4 h.HeaderTail = h.HeaderTail := by
    rw [← s14, List.take_length]
  simp only [serializeHeader, parseHeader, List.append_assoc]
  simp only [htail, List.take_left', List.drop_left', s1, s2, s3, s4, s5, s6, s7, s8,
    s9, s10, s11, s12, s13, s14, leBytes_length,
    leNat_leBytes_four, leNat_leBytes_one, r4, r6, r8, r14, r16, r18, r20,
    r21, r22]

/-! ### Slot predicates and the first-violation scan -/

/-- The type byte fails the decoder's type check: above FIND and not the
unused sentinel (exactly the values 5–254 for byte-range blocks). -/
def badTypeSlot (o : Objective) : Prop :=
  TypeFIND < o.objectiveType ∧ o.objectiveType ≠ TypeUnused

instance (o : Objective) : Decidable (badTypeSlot o) :=
  inferInstanceAs (Decidable (_ ∧ _))

/-- The block fails the decoder's name-length check: a type other than
DROP/FIND carrying a non-zero name-length byte. -/
def nameViolSlot (o : Objective) : Prop :=
  o.objectiveType ≠ TypeDROP ∧ o.objectiveType ≠ TypeFIND ∧ o.nameLength ≠ 0

instance (o : Objective) : Decidable (nameViolSlot o) :=
  inferInstanceAs (Decidable (_ ∧ _))

/-- The block violates one of the two per-slot validation rules. -/
def slotViolation (o : Objective) : Prop := badTypeSlot o ∨ nameViolSlot o

instance (o : Objective) : Decidable (slotViolation o) :=
  inferInstanceAs (Decidable (_ ∨ _))

/-- A slot whose on-wire layout is coherent: a 96-byte block of bytes, a
name buffer matching the embedded length for the name-bearing types, and no
name bytes otherwise (the block itself may still violate the validation
rules). -/
def streamSlot (o : Objective) : Prop :=
  o.Block.length = 96 ∧ bytesLt o.Block ∧
  ((o.objectiveType = TypeDROP ∨ o.objectiveType = TypeFIND) →
    o.Name.length = o.nameLength) ∧
  (¬(o.objectiveType = TypeDROP ∨ o.objectiveType = TypeFIND) → o.Name = [])

instance (o : Objective) : Decidable (streamSlot o) :=
  inferInstanceAs (Decidable (_ ∧ _))

instance (h : QuestHeader) : Decidable h.Sized :=
  inferInstanceAs (Decidable (_ ∧ _))

instance (h : QuestHeader) : Decidable h.InRange :=
  inferInstanceAs (Decidable (_ ∧ _))

instance (o : Objective) : Decidable o.ValidSlot :=
  inferInstanceAs (Decidable (_ ∧ _))

instance (q : QuestFile) : Decidable q.Valid :=
  inferInstanceAs (Decidable (_ ∧ _))

/-- A quest file whose on-wire layout is coherent slot by slot, without
requiring the per-slot validation rules to hold. -/
def QuestFile.Streamable (q : QuestFile) : Prop :=
  q.Header.Sized ∧ q.Objectives.length = NumObjectives ∧
  (∀ o ∈ q.Objectives, streamSlot o) ∧ q.Continuation.length = 3

instance (q : QuestFile) : Decidable q.Streamable :=
  inferInstanceAs (Decidable (_ ∧ _))

/-- The error the fail-fast linear scan reports for a slot list: the error
of the earliest violating slot, the type check taking precedence over the
name-length check within a slot. -/
def firstViol : List Objective → Option QErr
  | [] => none
  | o :: os =>
    if badTypeSlot o then some .invalidObjectiveType
    else if nameViolSlot o then some .nameLengthForType
    else firstViol os

theorem firstViol_eq_none (ss : List Objective)
    (h : ∀ o ∈ ss, ¬slotViolation o) : firstViol ss = none := by
  induction ss with
  | nil => rfl
  | cons o os ih =>
    have ho := h o (List.mem_cons_self _ _)
    rw [firstViol, if_neg (fun hb => ho (Or.inl hb)),
      if_neg (fun hn => ho (Or.inr hn))]
    exact ih fun x hx => h x (List.mem_cons_of_mem _ hx)

theorem Objective.ValidSlot.toStream {o : Objective} (h : o.ValidSlot) : streamSlot o := by
  obtain ⟨h1, h2, _, h4, h5, h6⟩ := h
  refine ⟨h1, h2, fun _ => h6, fun hnd => ?_⟩
  have hz : o.nameLength = 0 := by
    rcases h5 with h | h | h
    · exact absurd (Or.inl h) hnd
    · exact absurd (Or.inr h) hnd
    · exact h
  rw [← List.length_eq_zero, h6, hz]

theorem Objective.ValidSlot.noViolation {o : Objective} (h : o.ValidSlot) :
    ¬slotViolation o := by
  obtain ⟨_, _, _, h4, h5, _⟩ := h
  rintro (⟨hgt, hne⟩ | ⟨hd, hf, hz⟩)
  · rcases h4 with h | h
    · exact absurd h (Nat.not_le.mpr hgt)
    · exact hne h
  · rcases h5 with h | h | h
    · exact hd h
    · exact hf h
    · exact hz h

/-! ### Behaviour of the objective loop on laid-out slots -/

theorem readObjective_badType (o : Objective) (tl : List Nat) (te : Option Nat)
    (h96 : o.Block.length = 96) (hb : badTypeSlot o) :
    readObjective ⟨o.Block ++ tl, te⟩ = .error .invalidObjectiveType := by
  have hfull := readFull_exact o.Block tl te (n := ObjectiveBlockSize) (h96.trans rfl)
  have hb' : TypeFIND < o.Block.getD 0 0 ∧ o.Block.getD 0 0 ≠ TypeUnused := hb
  simp only [readObjective, hfull, if_pos hb']

theorem readObjective_nameViol (o : Objective) (tl : List Nat) (te : Option Nat)
    (h96 : o.Block.length = 96) (hnb : ¬badTypeSlot o) (hv : nameViolSlot o) :
    readObjective ⟨o.Block ++ tl, te⟩ = .error .nameLengthForType := by
  have hfull := readFull_exact o.Block tl te (n := ObjectiveBlockSize) (h96.trans rfl)
  have hnb' : ¬(TypeFIND < o.Block.getD 0 0 ∧ o.Block.getD 0 0 ≠ TypeUnused) := hnb
  have hv' : o.Block.getD 0 0 ≠ TypeDROP ∧ o.Block.getD 0 0 ≠ TypeFIND ∧
      o.Block.getD 92 0 ≠ 0 := hv
  simp only [readObjective, hfull, if_neg hnb', if_pos hv']

theorem readObjective_append (o : Objective) (rest : List Nat) (te : Option Nat)
    (hs : streamSlot o) (hv : ¬slotViolation o) :
    readObjective ⟨writeObjective o ++ rest, te⟩ = .ok (o, ⟨rest, te⟩) := by
  obtain ⟨h96, _, hname, hnoname⟩ := hs
  have hnb' : ¬(TypeFIND < o.Block.getD 0 0 ∧ o.Block.getD 0 0 ≠ TypeUnused) :=
    fun hb => hv (Or.inl hb)
  have hnv' : ¬(o.Block.getD 0 0 ≠ TypeDROP ∧ o.Block.getD 0 0 ≠ TypeFIND ∧
      o.Block.getD 92 0 ≠ 0) := fun hn => hv (Or.inr hn)
  have hfull := readFull_exact o.Block (o.Name ++ rest) te
    (n := ObjectiveBlockSize) (h96.trans rfl)
  have hsplit : writeObjective o ++ rest = o.Block ++ (o.Name ++ rest) := by
    simp [writeObjective]
  rw [hsplit]
  by_cases hlen : 0 < o.Block.getD 92 0
  · have htype : o.objectiveType = TypeDROP ∨ o.objectiveType = TypeFIND := by
      by_contra hnd
      have : o.Name = [] := hnoname hnd
      rcases Decidable.em (o.objectiveType = TypeDROP) with h | h
      · exact hnd (Or.inl h)
      rcases Decidable.em (o.objectiveType = TypeFIND) with h2 | h2
      · exact hnd (Or.inr h2)
      exact hnv' ⟨h, h2, Nat.pos_iff_ne_zero.mp hlen⟩
    have hlen' : o.Name.length = o.Block.getD 92 0 := hname htype
    have hfull2 := readFull_exact o.Name rest te (n := o.Block.getD 92 0) hlen'
    simp only [readObjective, hfull, if_neg hnb', if_neg hnv', if_pos hlen, hfull2]
  · have hz : o.Block.getD 92 0 = 0 := by omega
    have hnil : o.Name = [] := by
      rcases Decidable.em (o.objectiveType = TypeDROP ∨ o.objectiveType = TypeFIND)
        with h | h
      · exact List.length_eq_zero.mp ((hname h).trans hz)
      · exact hnoname h
    have hfull2 : readFull ⟨o.Block ++ rest, te⟩ ObjectiveBlockSize =
        .ok (o.Block, ⟨rest, te⟩) := readFull_exact o.Block rest te (h96.trans rfl)
    have hdata : o.Block ++ (o.Name ++ rest) = o.Block ++ rest := by
      rw [hnil, List.nil_append]
    have heta : ({ Block := o.Block, Name := [] } : Objective) = o := by
      rw [← hnil]
    rw [hdata]
    simp only [readObjective, hfull2, if_neg hnb', if_neg hnv', if_neg hlen, heta]

theorem readObjective_trunc (o : Objective) (cut : Nat)
    (hs : streamSlot o) (hv : ¬slotViolation o)
    (hcut : cut < (writeObjective o).length) :
    readObjective ⟨(writeObjective o).take cut, none⟩ = .error .unexpectedEOF := by
  obtain ⟨h96, _, hname, hnoname⟩ := hs
  have hwlen : (writeObjective o).length = 96 + o.Name.length := by
    simp [writeObjective, h96]
  by_cases hc : cut < 96
  · have hshort : ((writeObjective o).take cut).length < ObjectiveBlockSize := by
      rw [List.length_take]
      have hob : ObjectiveBlockSize = 96 := rfl
      omega
    simp only [readObjective, readFull_short _ hshort]
  · have htype : o.objectiveType = TypeDROP ∨ o.objectiveType = TypeFIND := by
      by_contra hnd
      have hnil : o.Name = [] := hnoname hnd
      rw [hwlen, hnil] at hcut
      simp at hcut
      omega
    have hlen' : o.Name.length = o.Block.getD 92 0 := hname htype
    have hnb' : ¬(TypeFIND < o.Block.getD 0 0 ∧ o.Block.getD 0 0 ≠ TypeUnused) :=
      fun hb => hv (Or.inl hb)
    have hnv' : ¬(o.Block.getD 0 0 ≠ TypeDROP ∧ o.Block.getD 0 0 ≠ TypeFIND ∧
        o.Block.getD 92 0 ≠ 0) := fun hn => hv (Or.inr hn)
    have htake : (writeObjective o).take cut = o.Block ++ o.Name.take (cut - 96) := by
      rw [writeObjective, List.take_append_eq_append_take,
        List.take_of_length_le (by omega), h96]
    have hfull := readFull_exact o.Block (o.Name.take (cut - 96)) none
      (n := ObjectiveBlockSize) (h96.trans rfl)
    have hpos : 0 < o.Block.getD 92 0 := by
      rw [← hlen']
      rw [hwlen] at hcut
      omega
    have hshort2 : ((o.Name.take (cut - 96)).length < o.Block.getD 92 0) := by
      rw [List.length_take, ← hlen']
      rw [hwlen] at hcut
      omega
    rw [htake]
    simp only [readObjective, hfull, if_neg hnb', if_neg hnv', if_pos hpos,
      readFull_short _ hshort2]

theorem readObjectives_append (ss : List Objective) (rest : List Nat)
    (te : Option Nat) (hs : ∀ o ∈ ss, streamSlot o) :
    readObjectives ss.length ⟨writeObjectives ss ++ rest, te⟩ =
      match firstViol ss with
      | none => .ok (ss, ⟨rest, te⟩)
      | some e => .error e := by
  induction ss generalizing rest with
  | nil => simp [readObjectives, writeObjectives, firstViol]
  | cons o os ih =>
    have ho := hs o (List.mem_cons_self _ _)
    have hos : ∀ x ∈ os, streamSlot x := fun x hx => hs x (List.mem_cons_of_mem _ hx)
    by_cases hb : badTypeSlot o
    · have hassoc : writeObjectives (o :: os) ++ rest =
          o.Block ++ (o.Name ++ (writeObjectives os ++ rest)) := by
        simp [writeObjectives, writeObjective]
      have herr := readObjective_badType o (o.Name ++ (writeObjectives os ++ rest))
        te ho.1 hb
      rw [hassoc]
      simp only [List.length_cons, readObjectives, herr, firstViol, if_pos hb]
    · by_cases hn : nameViolSlot o
      · have hassoc : writeObjectives (o :: os) ++ rest =
            o.Block ++ (o.Name ++ (writeObjectives os ++ rest)) := by
          simp [writeObjectives, writeObjective]
        have herr := readObjective_nameViol o (o.Name ++ (writeObjectives os ++ rest))
          te ho.1 hb hn
        rw [hassoc]
        simp only [List.length_cons, readObjectives, herr, firstViol, if_neg hb,
          if_pos hn]
      · have hclean : ¬slotViolation o := by
          rintro (h | h)
          · exact hb h
          · exact hn h
        have hok := readObjective_append o (writeObjectives os ++ rest) te
          ⟨ho.1, ho.2.1, ho.2.2.1, ho.2.2.2⟩ hclean
        have hassoc : writeObjectives (o :: os) ++ rest =
            writeObjective o ++ (writeObjectives os ++ rest) := by
          simp [writeObjectives]
        rw [hassoc]
        simp only [List.length_cons, readObjectives, hok, ih rest hos, firstViol,
          if_neg hb, if_neg hn]
        cases firstViol os <;> rfl

theorem readObjectives_trunc (ss : List Objective) (cut : Nat)
    (hs : ∀ o ∈ ss, streamSlot o) (hv : ∀ o ∈ ss, ¬slotViolation o)
    (hcut : cut < (writeObjectives ss).length) :
    readObjectives ss.length ⟨(writeObjectives ss).take cut, none⟩ =
      .error .unexpectedEOF := by
  induction ss generalizing cut with
  | nil => simp [writeObjectives] at hcut
  | cons o os ih =>
    have ho := hs o (List.mem_cons_self _ _)
    have hvo := hv o (List.mem_cons_self _ _)
    have hos : ∀ x ∈ os, streamSlot x := fun x hx => hs x (List.mem_cons_of_mem _ hx)
    have hvs : ∀ x ∈ os, ¬slotViolation x := fun x hx => hv x (List.mem_cons_of_mem _ hx)
    have hw : writeObjectives (o :: os) = writeObjective o ++ writeObjectives os := rfl
    by_cases hc : cut < (writeObjective o).length
    · have htake : (writeObjectives (o :: os)).take cut = (writeObjective o).take cut := by
        rw [hw, List.take_append_eq_append_take,
          Nat.sub_eq_zero_of_le (Nat.le_of_lt hc), List.take_zero, List.append_nil]
      rw [htake]
      have herr := readObjective_trunc o cut ho hvo hc
      simp only [List.length_cons, readObjectives, herr]
    · have hle : (writeObjective o).length ≤ cut := Nat.not_lt.mp hc
      have htake : (writeObjectives (o :: os)).take cut =
          writeObjective o ++ (writeObjectives os).take (cut - (writeObjective o).length) := by
        rw [hw, List.take_append_eq_append_take, List.take_of_length_le hle]
      have hok := readObjective_append o
        ((writeObjectives os).take (cut - (writeObjective o).length)) none ho hvo
      have hcut' : cut - (writeObjective o).length < (writeObjectives os).length := by
        have hlen : (writeObjectives (o :: os)).length =
            (writeObjective o).length + (writeObjectives os).length := by
          rw [hw, List.length_append]
        omega
      rw [htake]
      simp only [List.length_cons, readObjectives, hok, ih _ hos hvs hcut']

theorem readContinuation_append (cs : List Nat) (rest : List Nat) (te : Option Nat) :
    readContinuation cs.length ⟨writeContinuation cs ++ rest, te⟩ =
      .ok (cs.map (· % 2 ^ 32), ⟨rest, te⟩) := by
  induction cs generalizing rest with
  | nil => simp [readContinuation, writeContinuation]
  | cons c cs ih =>
    have hassoc : writeContinuation (c :: cs) ++ rest =
        leBytes 4 c ++ (writeContinuation cs ++ rest) := by
      simp [writeContinuation]
    have hfull := readFull_exact (leBytes 4 c) (writeContinuation cs ++ rest) te
      (leBytes_length 4 c)
    rw [hassoc]
    simp only [List.length_cons, readContinuation, hfull, ih, List.map_cons]
    rw [leNat_leBytes]

theorem writeContinuation_length (cs : List Nat) :
    (writeContinuation cs).length = 4 * cs.length := by
  induction cs with
  | nil => rfl
  | cons c cs ih =>
    simp only [writeContinuation, List.length_append, leBytes_length, ih,
      List.length_cons]
    ring

theorem readContinuation_trunc (cs : List Nat) (cut : Nat)
    (hcut : cut < (writeContinuation cs).length) :
    readContinuation cs.length ⟨(writeContinuation cs).take cut, none⟩ =
      .error .unexpectedEOF := by
  induction cs generalizing cut with
  | nil => simp [writeContinuation] at hcut
  | cons c cs ih =>
    have hw : writeContinuation (c :: cs) = leBytes 4 c ++ writeContinuation cs := rfl
    by_cases hc : cut < 4
    · have hshort : (((writeContinuation (c :: cs)).take cut)).length < 4 := by
        rw [List.length_take]
        omega
      simp only [List.length_cons, readContinuation, readFull_short _ hshort]
    · have hle : (leBytes 4 c).length ≤ cut := by rw [leBytes_length]; omega
      have htake : (writeContinuation (c :: cs)).take cut =
          leBytes 4 c ++ (writeContinuation cs).take (cut - 4) := by
        rw [hw, List.take_append_eq_append_take, List.take_of_length_le hle,
          leBytes_length]
      have hfull := readFull_exact (leBytes 4 c) ((writeContinuation cs).take (cut - 4))
        none (leBytes_length 4 c)
      have hcut' : cut - 4 < (writeContinuation cs).length := by
        have hlen : (writeContinuation (c :: cs)).length =
            4 + (writeContinuation cs).length := by
          rw [hw, List.length_append, leBytes_length]
        omega
      rw [htake]
      simp only [List.length_cons, readContinuation, hfull, ih _ hcut']

/-! ### Whole-file decode behaviour on encoded files -/

theorem map_mod_eq_self (cs : List Nat) (h : ∀ c ∈ cs, c < 2 ^ 32) :
    cs.map (· % 2 ^ 32) = cs := by
  induction cs with
  | nil => rfl
  | cons c cs ih => simp_all [Nat.mod_eq_of_lt]

theorem read_write_extra (q : QuestFile) (hq : q.Valid) (extra : List Nat)
    (te : Option Nat) :
    read ⟨write q ++ extra, te⟩ =
      if extra = [] then .ok q else .error .trailingBytes := by
  obtain ⟨hsz, hrange, hlen7, hslots, hlen3, hcrange⟩ := hq
  have hassoc : write q ++ extra =
      serializeHeader q.Header ++ (writeObjectives q.Objectives ++
        (writeContinuation q.Continuation ++ extra)) := by
    simp [write]
  have hh := readFull_exact (serializeHeader q.Header)
    (writeObjectives q.Objectives ++ (writeContinuation q.Continuation ++ extra)) te
    (n := HeaderSize) ((serializeHeader_length _ hsz).trans rfl)
  have hstream : ∀ o ∈ q.Objectives, streamSlot o := fun o ho => (hslots o ho).toStream
  have hnoviol := firstViol_eq_none _ fun o ho => (hslots o ho).noViolation
  have hobjs := readObjectives_append q.Objectives
    (writeContinuation q.Continuation ++ extra) te hstream
  rw [hnoviol, hlen7] at hobjs
  have hcont := readContinuation_append q.Continuation extra te
  rw [hlen3] at hcont
  rw [hassoc]
  simp only [read, hh, hobjs, hcont, map_mod_eq_self _ hcrange,
    parseHeader_serializeHeader _ hsz hrange]
  cases extra <;> simp [probeRead]

theorem read_write_trunc (q : QuestFile) (hq : q.Valid) (cut : Nat)
    (hcut : cut < (write q).length) :
    read ⟨(write q).take cut, none⟩ = .error .unexpectedEOF := by
  obtain ⟨hsz, hrange, hlen7, hslots, hlen3, hcrange⟩ := hq
  have hsh := serializeHeader_length _ hsz
  have hstream : ∀ o ∈ q.Objectives, streamSlot o := fun o ho => (hslots o ho).toStream
  have hnoviol : ∀ o ∈ q.Objectives, ¬slotViolation o :=
    fun o ho => (hslots o ho).noViolation
  have hw : write q = serializeHeader q.Header ++ (writeObjectives q.Objectives ++
      writeContinuation q.Continuation) := by
    simp [write]
  have hwl : (write q).length = 96 + ((writeObjectives q.Objectives).length +
      (writeContinuation q.Continuation).length) := by
    rw [hw, List.length_append, List.length_append, hsh]
  by_cases h1 : cut < 96
  · have htake : (write q).take cut = (serializeHeader q.Header).take cut := by
      rw [hw, List.take_append_eq_append_take, hsh,
        Nat.sub_eq_zero_of_le (by omega), List.take_zero, List.append_nil]
    have hshort : (((serializeHeader q.Header).take cut)).length < HeaderSize := by
      have hle := List.length_take_le cut (serializeHeader q.Header)
      have hhs : HeaderSize = 96 := rfl
      omega
    rw [htake]
    simp only [read, readFull_short _ hshort]
  · have hcut96 : cut = (serializeHeader q.Header).length + (cut - 96) := by
      rw [hsh]; omega
    have htake : (write q).take cut = serializeHeader q.Header ++
        (writeObjectives q.Objectives ++ writeContinuation q.Continuation).take (cut - 96) := by
      rw [hw]
      conv_lhs => rw [hcut96]
      rw [List.take_append]
    rw [htake]
    have hh := readFull_exact (serializeHeader q.Header)
      ((writeObjectives q.Objectives ++ writeContinuation q.Continuation).take (cut - 96))
      none (n := HeaderSize) (hsh.trans rfl)
    by_cases h2 : cut - 96 < (writeObjectives q.Objectives).length
    · have htake2 : (writeObjectives q.Objectives ++
          writeContinuation q.Continuation).take (cut - 96) =
          (writeObjectives q.Objectives).take (cut - 96) := by
        rw [List.take_append_eq_append_take,
          Nat.sub_eq_zero_of_le (Nat.le_of_lt h2), List.take_zero, List.append_nil]
      have ht := readObjectives_trunc q.Objectives (cut - 96) hstream hnoviol h2
      rw [hlen7] at ht
      rw [htake2] at hh ⊢
      simp only [read, hh, ht]
    · have hle2 : (writeObjectives q.Objectives).length ≤ cut - 96 := Nat.not_lt.mp h2
      have htake2 : (writeObjectives q.Objectives ++
          writeContinuation q.Continuation).take (cut - 96) =
          writeObjectives q.Objectives ++ (writeContinuation q.Continuation).take
            (cut - 96 - (writeObjectives q.Objectives).length) := by
        rw [List.take_append_eq_append_take, List.take_of_length_le hle2]
      have hobjs := readObjectives_append q.Objectives
        ((writeContinuation q.Continuation).take
          (cut - 96 - (writeObjectives q.Objectives).length)) none hstream
      rw [firstViol_eq_none _ hnoviol, hlen7] at hobjs
      have hcut' : cut - 96 - (writeObjectives q.Objectives).length <
          (writeContinuation q.Continuation).length := by omega
      have hct := readContinuation_trunc q.Continuation
        (cut - 96 - (writeObjectives q.Objectives).length) hcut'
      rw [hlen3] at hct
      rw [htake2] at hh ⊢
      simp only [read, hh, hobjs, hct]

/-! ### First-violation characterisations -/

theorem badTypeSlot_iff (o : Objective) (hs : streamSlot o) :
    badTypeSlot o ↔ 5 ≤ o.objectiveType ∧ o.objectiveType ≤ 254 := by
  obtain ⟨h96, hbl, _, _⟩ := hs
  have hlt : o.objectiveType < 256 := by
    have hmem : o.Block.getD 0 0 ∈ o.Block := by
      rw [List.getD_eq_getElem o.Block 0 (by omega)]
      exact List.getElem_mem _
    exact hbl _ hmem
  constructor
  · rintro ⟨h1, h2⟩
    have h1' : 4 < o.objectiveType := h1
    have h2' : o.objectiveType ≠ 255 := h2
    omega
  · rintro ⟨h1, h2⟩
    constructor
    · show 4 < o.objectiveType
      omega
    · show o.objectiveType ≠ 255
      omega

theorem firstViol_invalid_iff (ss : List Objective) :
    firstViol ss = some .invalidObjectiveType ↔
      ∃ i < ss.length, badTypeSlot (ss.getD i default) ∧
        ∀ j < i, ¬slotViolation (ss.getD j default) := by
  induction ss with
  | nil => simp [firstViol]
  | cons o os ih =>
    by_cases hb : badTypeSlot o
    · simp only [firstViol, if_pos hb]
      constructor
      · intro _
        exact ⟨0, by simp, by simpa using hb, by omega⟩
      · intro _
        trivial
    · by_cases hn : nameViolSlot o
      · simp only [firstViol, if_neg hb, if_pos hn]
        constructor
        · intro h
          exact absurd h (by simp)
        · rintro ⟨i, hi, hbad, hclean⟩
          cases i with
          | zero => exact absurd (by simpa using hbad) hb
          | succ i =>
            have hcl0 : ¬slotViolation o := by
              have hcs := hclean 0 (by omega)
              simpa only [List.getD_cons_zero] using hcs
            exact absurd (Or.inr hn) hcl0
      · simp only [firstViol, if_neg hb, if_neg hn, ih]
        constructor
        · rintro ⟨i, hi, hbad, hclean⟩
          refine ⟨i + 1, by simpa using hi, by simpa using hbad, ?_⟩
          intro j hj
          cases j with
          | zero =>
            simp only [List.getD_cons_zero]
            exact fun h => h.elim hb hn
          | succ j =>
            simp only [List.getD_cons_succ]
            exact hclean j (by omega)
        · rintro ⟨i, hi, hbad, hclean⟩
          cases i with
          | zero => exact absurd (by simpa using hbad) hb
          | succ i =>
            refine ⟨i, by simpa using hi, by simpa using hbad, ?_⟩
            intro j hj
            have hcs := hclean (j + 1) (by omega)
            simpa using hcs

theorem firstViol_at (ss : List Objective) (i : Nat) (hi : i < ss.length)
    (hclean : ∀ j < i, ¬slotViolation (ss.getD j default)) :
    (badTypeSlot (ss.getD i default) →
      firstViol ss = some .invalidObjectiveType) ∧
    (¬badTypeSlot (ss.getD i default) → nameViolSlot (ss.getD i default) →
      firstViol ss = some .nameLengthForType) := by
  induction ss generalizing i with
  | nil => exact absurd hi (by simp)
  | cons o os ih =>
    cases i with
    | zero =>
      simp only [List.getD_cons_zero]
      constructor
      · intro hb
        simp only [firstViol, if_pos hb]
      · intro hnb hnv
        simp only [firstViol, if_neg hnb, if_pos hnv]
    | succ i =>
      have hcl0 : ¬slotViolation o := by simpa using hclean 0 (by omega)
      have hb : ¬badTypeSlot o := fun h => hcl0 (Or.inl h)
      have hn : ¬nameViolSlot o := fun h => hcl0 (Or.inr h)
      have hrec := ih i (by simpa using hi)
        (fun j hj => by simpa using hclean (j + 1) (by omega))
      simpa [firstViol, hb, hn, List.getD_cons_succ] using hrec

/-- Decode behaviour of a fully laid-out file in terms of its first
violating slot: the decoder reports exactly the first violation of the
linear scan, and succeeds when there is none. -/
theorem read_write_viol (q : QuestFile) (h : q.Streamable) :
    (∀ e, firstViol q.Objectives = some e → read ⟨write q, none⟩ = .error e) ∧
    (firstViol q.Objectives = none → ∃ q', read ⟨write q, none⟩ = .ok q') := by
  obtain ⟨hsz, hlen7, hstream, hlen3⟩ := h
  have hassoc : write q = serializeHeader q.Header ++ (writeObjectives q.Objectives ++
      writeContinuation q.Continuation) := by
    simp [write]
  have hh := readFull_exact (serializeHeader q.Header)
    (writeObjectives q.Objectives ++ writeContinuation q.Continuation) none
    (n := HeaderSize) ((serializeHeader_length _ hsz).trans rfl)
  have hobjs := readObjectives_append q.Objectives (writeContinuation q.Continuation)
    none hstream
  rw [hlen7] at hobjs
  constructor
  · intro e he
    rw [he] at hobjs
    rw [hassoc]
    simp only [read, hh, hobjs]
  · intro hnone
    rw [hnone] at hobjs
    have hcont := readContinuation_append q.Continuation [] none
    rw [hlen3, List.append_nil] at hcont
    rw [hassoc]
    exact ⟨⟨parseHeader (serializeHeader q.Header), q.Objectives,
      q.Continuation.map (· % 2 ^ 32)⟩, by simp [read, hh, hobjs, hcont, probeRead]⟩

/-! ### Encoded lengths -/

theorem writeObjectives_length (ss : List Objective)
    (h : ∀ o ∈ ss, o.Block.length = 96) :
    (writeObjectives ss).length =
      96 * ss.length + (ss.map fun o => o.Name.length).sum := by
  induction ss with
  | nil => rfl
  | cons o os ih =>
    have ho := h o (List.mem_cons_self _ _)
    have hos := fun x hx => h x (List.mem_cons_of_mem _ hx)
    simp only [writeObjectives, writeObjective, List.length_append, ho, ih hos,
      List.length_cons, List.map_cons, List.sum_cons]
    ring

theorem write_length (q : QuestFile) (hsz : q.Header.Sized)
    (h7 : q.Objectives.length = NumObjectives)
    (hb : ∀ o ∈ q.Objectives, o.Block.length = 96)
    (h3 : q.Continuation.length = 3) :
    (write q).length = 780 + (q.Objectives.map fun o => o.Name.length).sum := by
  have h7' : q.Objectives.length = 7 := h7
  simp only [write, List.length_append, serializeHeader_length _ hsz,
    writeObjectives_length _ hb, writeContinuation_length, h7', h3]
  omega

theorem getD_mem (l : List Objective) (i : Nat) (h : i < l.length) :
    l.getD i default ∈ l := by
  rw [List.getD_eq_getElem l default h]
  exact List.getElem_mem h

/-! ### Concrete values for evaluating the codec -/

/-- An all-zero header (quest id 0, all padding zero). -/
def zeroHeader : QuestHeader :=
  { QuestIDRaw := List.replicate 4 0
    GivenNPCRaw := List.replicate 4 0
    TargetNPCBlock := List.replicate 24 0
    MinLevel := 0
    MinLevelPad := List.replicate 3 0
    MaxLevel := 0
    MaxLevelPad := List.replicate 3 0
    QuestFlags := 0
    RewardSlot1 := List.replicate 4 0
    RewardSlot2 := List.replicate 4 0
    RewardSlot3 := List.replicate 4 0
    RewardSlot4Pad := List.replicate 4 0
    RewardAreaPad := List.replicate 8 0
    Count1 := 0
    Count1Pad := List.replicate 3 0
    Count2 := 0
    Count2Pad := List.replicate 3 0
    Count3 := 0
    Count3Pad := List.replicate 3 0
    EXP := 0
    Woonz := 0
    Lore := 0
    HeaderTail := List.replicate 4 0 }

/-- A 96-byte objective block with type byte `t` at offset 0 and
name-length byte `n` at offset 92 (all other bytes zero). -/
def mkBlock (t n : Nat) : List Nat :=
  t :: (List.replicate 91 0 ++ (n :: List.replicate 3 0))

/-- An all-zero objective slot: type KILL, name length 0, no name. -/
def zeroObjective : Objective := ⟨List.replicate 96 0, []⟩

/-- A quest file with the all-zero header, the given objectives and an
all-zero continuation. -/
def questWith (objs : List Objective) : QuestFile :=
  ⟨zeroHeader, objs, [0, 0, 0]⟩

/-- The minimal all-zero quest file (7 KILL slots, no names). -/
def zeroQuest : QuestFile := questWith (List.replicate 7 zeroObjective)

/-- Slot 0 has the out-of-range type byte 9. -/
def badTypeQuest : QuestFile :=
  questWith (⟨mkBlock 9 0, []⟩ :: List.replicate 6 zeroObjective)

/-- Slot 0 is KILL but carries name-length byte 5 (no name bytes follow). -/
def nameViolQuest : QuestFile :=
  questWith (⟨mkBlock 0 5, []⟩ :: List.replicate 6 zeroObjective)

/-- Slot 0 is a DROP objective with a 10-byte name. -/
def dropQuest : QuestFile :=
  questWith (⟨mkBlock 3 10, List.replicate 10 65⟩ :: List.replicate 6 zeroObjective)

/-- One slot of every accepted type byte: 0,1,2,3,4 and the 0xFF sentinel. -/
def typesQuest : QuestFile :=
  questWith [⟨mkBlock 0 0, []⟩, ⟨mkBlock 1 0, []⟩, ⟨mkBlock 2 0, []⟩,
    ⟨mkBlock 3 0, []⟩, ⟨mkBlock 4 0, []⟩, ⟨mkBlock 255 0, []⟩, zeroObjective]

/-- Slot 0 clean, slot 1 violating both rules (type 9 and name length 5). -/
def doubleViolQuest : QuestFile :=
  questWith (zeroObjective :: ⟨mkBlock 9 5, []⟩ :: List.replicate 5 zeroObjective)

/-- Slot 0 clean, slot 1 BRINGNPC with name-length byte 5. -/
def lateNameViolQuest : QuestFile :=
  questWith (zeroObjective :: ⟨mkBlock 2 5, []⟩ :: List.replicate 5 zeroObjective)

/-- All 7 objectives are DROP slots with maximal 255-byte names. -/
def maxQuest : QuestFile :=
  questWith (List.replicate 7 ⟨mkBlock 3 255, List.replicate 255 0⟩)

/-- Structurally invalid: slot 0 carries 3 name bytes although its
name-length byte is 0. -/
def mismatchQuest : QuestFile :=
  questWith (⟨List.replicate 96 0, [1, 2, 3]⟩ :: List.replicate 6 zeroObjective)

/-- All 7 objectives are name-bearing: one DROP with a 10-byte name and
six FIND slots without names. -/
def allDropQuest : QuestFile :=
  questWith (⟨mkBlock 3 10, List.replicate 10 65⟩ ::
    List.replicate 6 ⟨mkBlock 4 0, []⟩)

/-! ### Claim theorems -/

/-- C4: for every valid `QuestFile` value `q` (objective type bytes,
name-length bytes and `Name` buffer lengths satisfying the decode
validation rules), decoding the byte sequence produced by encoding `q`
yields a `QuestFile` structurally equal to `q`, field for field, including
every padding byte of the header and the blocks. -/
theorem c4_decode_encode (q : QuestFile) (hq : q.Valid) :
    read ⟨write q, none⟩ = .ok q := by
  have h := read_write_extra q hq [] none
  simpa using h

/-- C5: for every byte sequence produced by encoding a valid `QuestFile`,
encoding the result of decoding it reproduces the sequence exactly, byte
for byte. -/
theorem c5_encode_decode (q : QuestFile) (hq : q.Valid) :
    (read ⟨write q, none⟩).map write = .ok (write q) := by
  have h := read_write_extra q hq [] none
  simp only [List.append_nil, if_pos rfl] at h
  rw [h]
  rfl

/-- C6: for every valid encoded quest file of length `L`, decoding any
strict prefix of length `cut < L` fails, and the failure is the truncation
error (unexpected end of stream), for every such cut. -/
theorem c6_truncation (q : QuestFile) (hq : q.Valid) (cut : Nat)
    (hcut : cut < (write q).length) :
    read ⟨(write q).take cut, none⟩ = .error .unexpectedEOF :=
  read_write_trunc q hq cut hcut

/-- C2: after the continuation section, `Read` fails with the
trailing-bytes error iff the 1-byte probe returns at least one byte; if the
probe returns zero bytes the decode succeeds even when the stream tail
raises an error other than end-of-stream — such an error is never reported
as the trailing-bytes error. -/
theorem c2_trailing_probe (q : QuestFile) (hq : q.Valid) (extra : List Nat)
    (te : Option Nat) :
    (read ⟨write q ++ extra, te⟩ = .error .trailingBytes ↔
      0 < probeRead ⟨extra, te⟩) ∧
    (extra = [] → read ⟨write q ++ extra, te⟩ = .ok q) := by
  have hrw := read_write_extra q hq extra te
  constructor
  · rw [hrw]
    cases extra <;> simp [probeRead]
  · intro hx
    rw [hrw, if_pos hx]

/-- C10: for every `QuestFile` value with the Go-typed shape — valid or
structurally invalid — and a sink that never fails, `Write` succeeds and
produces exactly `780 + Σ len(Name)` bytes: the output length depends only
on the `Name` buffer lengths, never on the embedded name-length bytes or
any validity condition. -/
theorem c10_write_length (q : QuestFile) (hsz : q.Header.Sized)
    (h7 : q.Objectives.length = NumObjectives)
    (hb : ∀ o ∈ q.Objectives, o.Block.length = 96)
    (h3 : q.Continuation.length = 3) :
    (write q).length = 780 + (q.Objectives.map fun o => o.Name.length).sum :=
  write_length q hsz h7 hb h3

/-- C8: encoding a `QuestFile` in which no objective carries a name
produces exactly 780 bytes, and encoding one in which all 7 objectives
carry maximal 255-byte names produces exactly 2565 bytes. -/
theorem c8_encoded_sizes (q : QuestFile) (hsz : q.Header.Sized)
    (h7 : q.Objectives.length = NumObjectives)
    (hb : ∀ o ∈ q.Objectives, o.Block.length = 96)
    (h3 : q.Continuation.length = 3) :
    ((∀ o ∈ q.Objectives, o.Name = []) → (write q).length = 780) ∧
    ((∀ o ∈ q.Objectives, o.Name.length = 255) → (write q).length = 2565) := by
  constructor
  · intro hnil
    rw [write_length q hsz h7 hb h3]
    have hz : (q.Objectives.map fun o => o.Name.length).sum = 0 := by
      apply List.sum_eq_zero
      intro x hx
      obtain ⟨o, ho, rfl⟩ := List.mem_map.mp hx
      rw [hnil o ho]
      rfl
    rw [hz]
  · intro hmax
    rw [write_length q hsz h7 hb h3]
    have hs : (q.Objectives.map fun o => o.Name.length).sum =
        (q.Objectives.map fun o => o.Name.length).length * 255 := by
      apply List.sum_eq_card_nsmul
      intro x hx
      obtain ⟨o, ho, rfl⟩ := List.mem_map.mp hx
      exact hmax o ho
    rw [hs, List.length_map, h7]
    rfl

/-- C9: `SetQuestID` overwrites only the first 2 bytes of the 4-byte raw
quest-id slot with the little-endian encoding of the id, preserving the 2
padding bytes and every other header field; `QuestID` returns the
little-endian value of the first 2 bytes, so reading after writing returns
the written id regardless of the padding; and likewise for
`SetGivenNPCID`/`GivenNPCID`. -/
theorem c9_id_accessors (h : QuestHeader) (id : Nat)
    (hlen : h.QuestIDRaw.length = 4) (hlen2 : h.GivenNPCRaw.length = 4)
    (hid : id < 2 ^ 16) :
    ((h.setQuestID id).QuestIDRaw = leBytes 2 id ++ h.QuestIDRaw.drop 2 ∧
      (h.setQuestID id).QuestIDRaw.drop 2 = h.QuestIDRaw.drop 2 ∧
      (h.setQuestID id).QuestIDRaw.length = 4 ∧
      (h.setQuestID id).questID = id ∧
      (h.setQuestID id).GivenNPCRaw = h.GivenNPCRaw ∧
      (h.setQuestID id).TargetNPCBlock = h.TargetNPCBlock ∧
      (h.setQuestID id).MinLevel = h.MinLevel ∧
      (h.setQuestID id).MinLevelPad = h.MinLevelPad ∧
      (h.setQuestID id).MaxLevel = h.MaxLevel ∧
      (h.setQuestID id).MaxLevelPad = h.MaxLevelPad ∧
      (h.setQuestID id).QuestFlags = h.QuestFlags ∧
      (h.setQuestID id).RewardSlot1 = h.RewardSlot1 ∧
      (h.setQuestID id).RewardSlot2 = h.RewardSlot2 ∧
      (h.setQuestID id).RewardSlot3 = h.RewardSlot3 ∧
      (h.setQuestID id).RewardSlot4Pad = h.RewardSlot4Pad ∧
      (h.setQuestID id).RewardAreaPad = h.RewardAreaPad ∧
      (h.setQuestID id).Count1 = h.Count1 ∧
      (h.setQuestID id).Count1Pad = h.Count1Pad ∧
      (h.setQuestID id).Count2 = h.Count2 ∧
      (h.setQuestID id).Count2Pad = h.Count2Pad ∧
      (h.setQuestID id).Count3 = h.Count3 ∧
      (h.setQuestID id).Count3Pad = h.Count3Pad ∧
      (h.setQuestID id).EXP = h.EXP ∧
      (h.setQuestID id).Woonz = h.Woonz ∧
      (h.setQuestID id).Lore = h.Lore ∧
      (h.setQuestID id).HeaderTail = h.HeaderTail) ∧
    ((h.setGivenNPCID id).GivenNPCRaw = leBytes 2 id ++ h.GivenNPCRaw.drop 2 ∧
      (h.setGivenNPCID id).GivenNPCRaw.drop 2 = h.GivenNPCRaw.drop 2 ∧
      (h.setGivenNPCID id).GivenNPCRaw.length = 4 ∧
      (h.setGivenNPCID id).givenNPCID = id ∧
      (h.setGivenNPCID id).QuestIDRaw = h.QuestIDRaw) := by
  have hql : (leBytes 2 id).length = 2 := leBytes_length 2 id
  have hdl : (h.QuestIDRaw.drop 2).length = 2 := by
    rw [List.length_drop, hlen]
  have hdl2 : (h.GivenNPCRaw.drop 2).length = 2 := by
    rw [List.length_drop, hlen2]
  have hread : leNat ((leBytes 2 id ++ h.QuestIDRaw.drop 2).take 2) = id := by
    rw [List.take_left' hql, leNat_leBytes]
    exact Nat.mod_eq_of_lt (by norm_num; exact hid)
  have hread2 : leNat ((leBytes 2 id ++ h.GivenNPCRaw.drop 2).take 2) = id := by
    rw [List.take_left' hql, leNat_leBytes]
    exact Nat.mod_eq_of_lt (by norm_num; exact hid)
  refine ⟨⟨rfl, List.drop_left' hql, ?_, hread, rfl, rfl, rfl, rfl, rfl, rfl,
    rfl, rfl, rfl, rfl, rfl, rfl, rfl, rfl, rfl, rfl, rfl, rfl, rfl, rfl,
    rfl, rfl⟩, rfl, List.drop_left' hql, ?_, hread2, rfl⟩
  · rw [QuestHeader.setQuestID, List.length_append, hql, hdl]
  · rw [QuestHeader.setGivenNPCID, List.length_append, hql, hdl2]

/-- C1: on a fully laid-out stream, `Read` fails with the
invalid-objective-type error iff some objective slot carries a type byte in
5..254 with no validation violation at any earlier slot; and when every
slot is violation-free — i.e. every type byte is one of {0,1,2,3,4,0xFF}
with name-length 0 for the types that require it — all slots are accepted
and decoding succeeds. -/
theorem c1_invalid_type_iff (q : QuestFile) (h : q.Streamable) :
    (read ⟨write q, none⟩ = .error .invalidObjectiveType ↔
      ∃ i < NumObjectives,
        (5 ≤ (q.Objectives.getD i default).objectiveType ∧
          (q.Objectives.getD i default).objectiveType ≤ 254) ∧
        ∀ j < i, ¬slotViolation (q.Objectives.getD j default)) ∧
    ((∀ i < NumObjectives, ¬slotViolation (q.Objectives.getD i default)) →
      ∃ q', read ⟨write q, none⟩ = .ok q') := by
  obtain ⟨herr, hok⟩ := read_write_viol q h
  have hlen7 : q.Objectives.length = NumObjectives := h.2.1
  have hstream : ∀ o ∈ q.Objectives, streamSlot o := h.2.2.1
  constructor
  · constructor
    · intro hre
      rcases hfv : firstViol q.Objectives with _ | e
      · obtain ⟨q', hq'⟩ := hok hfv
        rw [hq'] at hre
        simp at hre
      · have hee := herr e hfv
        have hei : (Except.error e : Except QErr QuestFile) =
            .error .invalidObjectiveType := hee.symm.trans hre
        have he : e = QErr.invalidObjectiveType := by
          simpa using hei
        subst he
        obtain ⟨i, hi, hbad, hclean⟩ := (firstViol_invalid_iff q.Objectives).mp hfv
        refine ⟨i, hlen7 ▸ hi, ?_, hclean⟩
        exact (badTypeSlot_iff _ (hstream _ (getD_mem _ i hi))).mp hbad
    · rintro ⟨i, hi, hrange, hclean⟩
      have hi' : i < q.Objectives.length := hlen7.symm ▸ hi
      have hbad := (badTypeSlot_iff _ (hstream _ (getD_mem _ i hi'))).mpr hrange
      exact herr _ ((firstViol_at q.Objectives i hi' hclean).1 hbad)
  · intro hcl
    apply hok
    apply firstViol_eq_none
    intro o ho
    obtain ⟨i, hilen, hio⟩ := List.mem_iff_getElem.mp ho
    have hni := hcl i (hlen7 ▸ hilen)
    rw [List.getD_eq_getElem _ _ hilen, hio] at hni
    exact hni

/-- C3: on a fully laid-out stream, a slot of type KILL, QUESTITEM,
BRINGNPC or UNUSED (0xFF) whose name-length byte is non-zero makes `Read`
fail with the invalid-name-length error as soon as no earlier slot
violates a rule; a file whose slots are all DROP or FIND — any name
length, with exactly that many name bytes following each block — is
accepted and decodes successfully. -/
theorem c3_name_length_rule (q : QuestFile) (h : q.Streamable) :
    (∀ i < NumObjectives,
      (∀ j < i, ¬slotViolation (q.Objectives.getD j default)) →
      ((q.Objectives.getD i default).objectiveType = TypeKILL ∨
        (q.Objectives.getD i default).objectiveType = TypeQUESTITEM ∨
        (q.Objectives.getD i default).objectiveType = TypeBRINGNPC ∨
        (q.Objectives.getD i default).objectiveType = TypeUnused) →
      (q.Objectives.getD i default).nameLength ≠ 0 →
      read ⟨write q, none⟩ = .error .nameLengthForType) ∧
    ((∀ i < NumObjectives,
        (q.Objectives.getD i default).objectiveType = TypeDROP ∨
        (q.Objectives.getD i default).objectiveType = TypeFIND) →
      ∃ q', read ⟨write q, none⟩ = .ok q') := by
  obtain ⟨herr, hok⟩ := read_write_viol q h
  have hlen7 : q.Objectives.length = NumObjectives := h.2.1
  constructor
  · intro i hi hclean htype hnz
    have hi' : i < q.Objectives.length := hlen7.symm ▸ hi
    have hnb : ¬badTypeSlot (q.Objectives.getD i default) := by
      rintro ⟨hgt, hne⟩
      have hgt' : 4 < (q.Objectives.getD i default).objectiveType := hgt
      have hne' : (q.Objectives.getD i default).objectiveType ≠ 255 := hne
      rcases htype with ht | ht | ht | ht
      · have ht' : (q.Objectives.getD i default).objectiveType = 0 := ht
        omega
      · have ht' : (q.Objectives.getD i default).objectiveType = 1 := ht
        omega
      · have ht' : (q.Objectives.getD i default).objectiveType = 2 := ht
        omega
      · have ht' : (q.Objectives.getD i default).objectiveType = 255 := ht
        omega
    have hnv : nameViolSlot (q.Objectives.getD i default) := by
      refine ⟨?_, ?_, hnz⟩
      · show (q.Objectives.getD i default).objectiveType ≠ 3
        rcases htype with ht | ht | ht | ht
        · have ht' : (q.Objectives.getD i default).objectiveType = 0 := ht
          omega
        · have ht' : (q.Objectives.getD i default).objectiveType = 1 := ht
          omega
        · have ht' : (q.Objectives.getD i default).objectiveType = 2 := ht
          omega
        · have ht' : (q.Objectives.getD i default).objectiveType = 255 := ht
          omega
      · show (q.Objectives.getD i default).objectiveType ≠ 4
        rcases htype with ht | ht | ht | ht
        · have ht' : (q.Objectives.getD i default).objectiveType = 0 := ht
          omega
        · have ht' : (q.Objectives.getD i default).objectiveType = 1 := ht
          omega
        · have ht' : (q.Objectives.getD i default).objectiveType = 2 := ht
          omega
        · have ht' : (q.Objectives.getD i default).objectiveType = 255 := ht
          omega
    exact herr _ ((firstViol_at q.Objectives i hi' hclean).2 hnb hnv)
  · intro hdf
    apply hok
    apply firstViol_eq_none
    intro o ho
    obtain ⟨i, hilen, hio⟩ := List.mem_iff_getElem.mp ho
    have hd := hdf i (hlen7 ▸ hilen)
    rw [List.getD_eq_getElem _ _ hilen, hio] at hd
    rintro (⟨hgt, _⟩ | ⟨hd3, hf4, _⟩)
    · have hgt' : 4 < o.objectiveType := hgt
      rcases hd with ht | ht
      · have ht' : o.objectiveType = 3 := ht
        omega
      · have ht' : o.objectiveType = 4 := ht
        omega
    · rcases hd with ht | ht
      · exact hd3 ht
      · exact hf4 ht

/-- C7: decode errors are reported fail-fast in linear-scan order — for a
stream whose slots up to `i` are violation-free, the error `Read` returns
is the one for slot `i`, and within slot `i` an invalid type byte is
reported in preference to an invalid name length (the two errors are
mutually exclusive, `Read` returning at most one of them). -/
theorem c7_error_order (q : QuestFile) (h : q.Streamable) (i : Nat)
    (hi : i < NumObjectives)
    (hclean : ∀ j < i, ¬slotViolation (q.Objectives.getD j default)) :
    (badTypeSlot (q.Objectives.getD i default) →
      read ⟨write q, none⟩ = .error .invalidObjectiveType) ∧
    (¬badTypeSlot (q.Objectives.getD i default) →
      nameViolSlot (q.Objectives.getD i default) →
      read ⟨write q, none⟩ = .error .nameLengthForType) := by
  obtain ⟨herr, _⟩ := read_write_viol q h
  have hi' : i < q.Objectives.length := h.2.1.symm ▸ hi
  obtain ⟨h1, h2⟩ := firstViol_at q.Objectives i hi' hclean
  exact ⟨fun hb => herr _ (h1 hb), fun hnb hnv => herr _ (h2 hnb hnv)⟩

/-! ### Witnesses: the claim theorems applied at concrete inputs -/

set_option maxRecDepth 4000

/-- Witness for C1: the type-9 slot makes decoding of `badTypeQuest` fail
with the invalid-type error, and `typesQuest`, covering every accepted
type byte, decodes successfully. -/
theorem c1_witness :
    read ⟨write badTypeQuest, none⟩ = .error .invalidObjectiveType ∧
    (∃ q', read ⟨write typesQuest, none⟩ = .ok q') :=
  ⟨(c1_invalid_type_iff badTypeQuest (by decide)).1.mpr
      ⟨0, by decide, by decide, by decide⟩,
   (c1_invalid_type_iff typesQuest (by decide)).2 (by decide)⟩

/-- Witness for C2: one trailing byte yields the trailing-bytes error even
with an erroring tail, and with no trailing data the decode succeeds even
though the probe raises a non-EOF error. -/
theorem c2_witness :
    ((read ⟨write zeroQuest ++ [7], some 3⟩ = .error .trailingBytes ↔
        0 < probeRead ⟨[7], some 3⟩) ∧
      ([7] = ([] : List Nat) → read ⟨write zeroQuest ++ [7], some 3⟩ = .ok zeroQuest)) ∧
    ((read ⟨write zeroQuest ++ [], some 3⟩ = .error .trailingBytes ↔
        0 < probeRead ⟨[], some 3⟩) ∧
      (([] : List Nat) = [] → read ⟨write zeroQuest ++ [], some 3⟩ = .ok zeroQuest)) :=
  ⟨c2_trailing_probe zeroQuest (by decide) [7] (some 3),
   c2_trailing_probe zeroQuest (by decide) [] (some 3)⟩

/-- Witness for C3: a KILL slot with name-length byte 5 fails with the
invalid-name-length error, and a file of DROP/FIND slots with a 10-byte
name decodes successfully. -/
theorem c3_witness :
    read ⟨write nameViolQuest, none⟩ = .error .nameLengthForType ∧
    (∃ q', read ⟨write allDropQuest, none⟩ = .ok q') :=
  ⟨(c3_name_length_rule nameViolQuest (by decide)).1 0 (by decide) (by decide)
      (by decide) (by decide),
   (c3_name_length_rule allDropQuest (by decide)).2 (by decide)⟩

/-- Witness for C4: decode of encode of the all-zero quest file is the
file itself. -/
theorem c4_witness : read ⟨write zeroQuest, none⟩ = .ok zeroQuest :=
  c4_decode_encode zeroQuest (by decide)

/-- Witness for C5: re-encoding the decode of the encoded named-DROP file
reproduces the bytes exactly. -/
theorem c5_witness :
    (read ⟨write dropQuest, none⟩).map write = .ok (write dropQuest) :=
  c5_encode_decode dropQuest (by decide)

/-- Witness for C6: a 100-byte prefix of the 780-byte encoded all-zero
file fails with the truncation error. -/
theorem c6_witness :
    read ⟨(write zeroQuest).take 100, none⟩ = .error .unexpectedEOF :=
  c6_truncation zeroQuest (by decide) 100 (by decide)

/-- Witness for C7: with slot 1 violating both rules the type error is
reported, and a pure name-length violation at slot 1 yields the
name-length error. -/
theorem c7_witness :
    read ⟨write doubleViolQuest, none⟩ = .error .invalidObjectiveType ∧
    read ⟨write lateNameViolQuest, none⟩ = .error .nameLengthForType :=
  ⟨(c7_error_order doubleViolQuest (by decide) 1 (by decide) (by decide)).1
      (by decide),
   (c7_error_order lateNameViolQuest (by decide) 1 (by decide) (by decide)).2
      (by decide) (by decide)⟩

/-- Witness for C8: the nameless file encodes to 780 bytes and the file of
seven 255-byte names to 2565 bytes. -/
theorem c8_witness :
    (write zeroQuest).length = 780 ∧ (write maxQuest).length = 2565 :=
  ⟨(c8_encoded_sizes zeroQuest (by decide) (by decide) (by decide) (by decide)).1
      (by decide),
   (c8_encoded_sizes maxQuest (by decide) (by decide) (by decide) (by decide)).2
      (by decide)⟩

/-- Witness for C9: writing id 4660 into the all-zero header reads back as
4660 and leaves the quest-id padding bytes untouched. -/
theorem c9_witness :
    (zeroHeader.setQuestID 4660).questID = 4660 ∧
    (zeroHeader.setQuestID 4660).QuestIDRaw.drop 2 = zeroHeader.QuestIDRaw.drop 2 ∧
    (zeroHeader.setGivenNPCID 4660).givenNPCID = 4660 :=
  ⟨(c9_id_accessors zeroHeader 4660 (by decide) (by decide) (by decide)).1.2.2.2.1,
   (c9_id_accessors zeroHeader 4660 (by decide) (by decide) (by decide)).1.2.1,
   (c9_id_accessors zeroHeader 4660 (by decide) (by decide) (by decide)).2.2.2.2.1⟩

/-- Witness for C10: the structurally invalid file whose slot 0 carries 3
name bytes against a zero name-length byte still encodes, to 780 + 3
bytes. -/
theorem c10_witness :
    (write mismatchQuest).length =
      780 + (mismatchQuest.Objectives.map fun o => o.Name.length).sum :=
  c10_write_length mismatchQuest (by decide) (by decide) (by decide) (by decide)

end Questfile
